import Mathlib

/-!
Verification of `src/torchmetrics/functional/classification.py`.

Tensors of class labels are embedded as `List Nat` (flattened, which is
faithful because every operation involved is elementwise plus a sum),
probability tensors as `List (List ℚ)` (rows = elements, columns = class
scores), and floating-point results as `ℚ`.  Collaborators that live in
`torchmetrics.utils` (`to_categorical`, `get_num_classes`, `class_reduce`,
`reduce`) are modelled from the specification, and are marked as such.
Warnings emitted through `rank_zero_warn` are modelled as a returned list
of advisory strings where a claim is about them, and dropped elsewhere
(they never affect any computed value).
-/

namespace Metrics

/-- Modelled from the spec: helper for the Categorical Converter.  Walks the
remaining scores keeping the index and value of the best score seen so far;
only a strictly larger score replaces it, so ties resolve to the first
maximal index. -/
def argmaxFrom : List ℚ → Nat → Nat → ℚ → Nat
  | [], _, bi, _ => bi
  | x :: xs, i, bi, bv => if bv < x then argmaxFrom xs (i + 1) i x else argmaxFrom xs (i + 1) bi bv

/-- Arg-max index of one row of class scores (first maximal index; 0 for an
empty row). -/
def argmaxRow : List ℚ → Nat
  | [] => 0
  | x :: xs => argmaxFrom xs 1 0 x

/-- Modelled from the spec: `to_categorical` (torchmetrics.utils, not part
of the sources) converts a probability tensor to class labels by arg-max
over the class axis, here axis 1 of a 2-D tensor: the arg-max of every
row. -/
def to_categorical (pred : List (List ℚ)) : List Nat :=
  pred.map argmaxRow

/-- Embedding of `stat_scores` on label inputs (`pred.ndim == target.ndim`):
TP, FP, TN, FN are the sums of elementwise products of equality /
inequality masks, Support the sum of the target equality mask. -/
def stat_scores (pred target : List Nat) (class_index : Nat) :
    Nat × Nat × Nat × Nat × Nat :=
  let pairs := pred.zip target
  let tp := pairs.countP fun pt => decide (pt.1 = class_index) && decide (pt.2 = class_index)
  let fp := pairs.countP fun pt => decide (pt.1 = class_index) && !decide (pt.2 = class_index)
  let tn := pairs.countP fun pt => !decide (pt.1 = class_index) && !decide (pt.2 = class_index)
  let fn := pairs.countP fun pt => !decide (pt.1 = class_index) && decide (pt.2 = class_index)
  let sup := target.countP fun t => decide (t = class_index)
  (tp, fp, tn, fn, sup)

/-- Embedding of `stat_scores` on a probability `pred` with one extra
dimension: the source first applies the categorical conversion, then counts. -/
def stat_scores2d (pred : List (List ℚ)) (target : List Nat) (class_index : Nat) :
    Nat × Nat × Nat × Nat × Nat :=
  stat_scores (to_categorical pred) target class_index

/-- Modelled from the spec: `get_num_classes` (torchmetrics.utils, not part
of the sources) returns the given `num_classes` when present and otherwise
infers it as the maximum observed class id plus one. -/
def get_num_classes (pred target : List Nat) (num_classes : Option Nat) : Nat :=
  match num_classes with
  | some n => n
  | none => (pred ++ target).foldr max 0 + 1

/-- `clamp_max(num_classes)` on a label tensor. -/
def clampTo (l : List Nat) (num_classes : Nat) : List Nat :=
  l.map fun x => min x num_classes

/-- The five per-class Stat Vectors of the `reduction='none'` branch of
`stat_scores_multiple_classes`. -/
structure StatVecs where
  tps : List ℚ
  fps : List ℚ
  tns : List ℚ
  fns : List ℚ
  sups : List ℚ
deriving DecidableEq

/-- The five aggregate totals of the `reduction='sum'` /
`'elementwise_mean'` branches of `stat_scores_multiple_classes`. -/
structure StatAgg where
  tps : ℚ
  fps : ℚ
  tns : ℚ
  fns : ℚ
  sups : ℚ
deriving DecidableEq

/-- Result shape of `stat_scores_multiple_classes`: per-class vectors for
`'none'`, aggregate totals for `'sum'` and `'elementwise_mean'`. -/
inductive StatResult where
  | vecs (v : StatVecs)
  | aggs (a : StatAgg)
deriving DecidableEq

/-- Per-class true positives of the `'none'` branch: scatter-add of the
match indicator keyed by the predicted class. -/
def tpsAt (pred target : List Nat) (c : Nat) : Nat :=
  (pred.zip target).countP fun pt => decide (pt.1 = c) && decide (pt.1 = pt.2)

/-- Per-class false positives of the `'none'` branch: scatter-add of the
mismatch indicator keyed by the predicted class. -/
def fpsAt (pred target : List Nat) (c : Nat) : Nat :=
  (pred.zip target).countP fun pt => decide (pt.1 = c) && !decide (pt.1 = pt.2)

/-- Per-class false negatives of the `'none'` branch: scatter-add of the
mismatch indicator keyed by the target class. -/
def fnsAt (pred target : List Nat) (c : Nat) : Nat :=
  (pred.zip target).countP fun pt => decide (pt.2 = c) && !decide (pt.1 = pt.2)

/-- Per-class support of the `'none'` branch: scatter-add of ones keyed by
the target class. -/
def supsAt (target : List Nat) (c : Nat) : Nat :=
  target.countP fun t => decide (t = c)

/-- The `reduction='none'` branch of `stat_scores_multiple_classes`:
accumulators of size `num_classes + 1` (the last slot is the overflow
bucket), `tns = N - (tps + fps + fns)` elementwise, all truncated to the
first `num_classes` entries. -/
def noneBranch (pred target : List Nat) (num_classes : Nat) : StatVecs :=
  let full := List.range (num_classes + 1)
  { tps := (full.map fun c => ((tpsAt pred target c : Nat) : ℚ)).take num_classes
    fps := (full.map fun c => ((fpsAt pred target c : Nat) : ℚ)).take num_classes
    tns := (full.map fun c =>
      ((pred.length : Nat) : ℚ) -
        (((tpsAt pred target c : Nat) : ℚ) + ((fpsAt pred target c : Nat) : ℚ) +
          ((fnsAt pred target c : Nat) : ℚ))).take num_classes
    fns := (full.map fun c => ((fnsAt pred target c : Nat) : ℚ)).take num_classes
    sups := (full.map fun c => ((supsAt target c : Nat) : ℚ)).take num_classes }

/-- The `reduction='sum'` branch of `stat_scores_multiple_classes`: the
global match count minus the overflow-class statistics obtained from
`stat_scores` at `class_index = num_classes`. -/
def sumBranch (pred target : List Nat) (num_classes : Nat) : StatAgg :=
  let countMatchTrue : ℚ := ((pred.zip target).countP fun pt => decide (pt.1 = pt.2) : Nat)
  let oob := stat_scores pred target num_classes
  let n : ℚ := (pred.length : Nat)
  let tps := countMatchTrue - (oob.1 : Nat)
  let fps := n - countMatchTrue - (oob.2.1 : Nat)
  let fns := n - countMatchTrue - (oob.2.2.2.1 : Nat)
  let tns := n * ((num_classes : Nat) + 1 : ℚ) - (tps + fps + fns + ((oob.2.2.1 : Nat) : ℚ))
  let sups := n - (oob.2.2.2.2 : Nat)
  { tps := tps, fps := fps, tns := tns, fns := fns, sups := sups }

/-- The `'none'` branch applied after `get_num_classes` and clamping, as
`stat_scores_multiple_classes` does. -/
def statScoresMCNoneFull (pred target : List Nat) (num_classes : Option Nat) : StatVecs :=
  let nc := get_num_classes pred target num_classes
  noneBranch (clampTo pred nc) (clampTo target nc) nc

/-- The `'sum'` branch applied after `get_num_classes` and clamping. -/
def statScoresMCSumFull (pred target : List Nat) (num_classes : Option Nat) : StatAgg :=
  let nc := get_num_classes pred target num_classes
  sumBranch (clampTo pred nc) (clampTo target nc) nc

/-- Embedding of `stat_scores_multiple_classes`: infer `num_classes`, clamp
both label tensors to it, reject unsupported reduction strings, and
dispatch on the reduction mode.  The `'elementwise_mean'` branch divides
every `'sum'` aggregate by `num_classes`. -/
def stat_scores_multiple_classes (pred target : List Nat) (num_classes : Option Nat)
    (reduction : String) : Except String StatResult :=
  if reduction = "none" then
    .ok (.vecs (statScoresMCNoneFull pred target num_classes))
  else if reduction = "sum" then
    .ok (.aggs (statScoresMCSumFull pred target num_classes))
  else if reduction = "elementwise_mean" then
    let nc : ℚ := (get_num_classes pred target num_classes : Nat)
    let a := statScoresMCSumFull pred target num_classes
    .ok (.aggs { tps := a.tps / nc, fps := a.fps / nc, tns := a.tns / nc,
                 fns := a.fns / nc, sups := a.sups / nc })
  else
    .error ("reduction type " ++ reduction ++ " not supported")

/-- Number of positions whose clamped prediction or clamped target falls
into the overflow bucket `num_classes`; the amount by which the `'sum'`
branch's TN aggregate exceeds the summed per-class TN entries. -/
def overflowTouch (pred target : List Nat) (num_classes : Nat) : Nat :=
  ((clampTo pred num_classes).zip (clampTo target num_classes)).countP fun pt =>
    decide (pt.1 = num_classes) || decide (pt.2 = num_classes)

/-- Scalar-or-vector result of the reducing collaborators. -/
inductive CRVal where
  | scalar (q : ℚ)
  | vec (v : List ℚ)
deriving DecidableEq

/-- Per-class ratio vector with the collaborator's convention that a zero
denominator contributes 0 (in particular 0/0 is 0). -/
def classFracs (num denom : List ℚ) : List ℚ :=
  List.zipWith (fun n d => if d = 0 then 0 else n / d) num denom

/-- Modelled from the spec: the Class Reducer collaborator `class_reduce`
(torchmetrics.utils, not part of the sources).  micro is the ratio of the
sums, macro the plain mean of the per-class ratios, weighted the
support-weighted mean, and `'none'` — the final branch; other strategy
strings are outside the collaborator's contract and not modelled — the
per-class ratio vector unchanged. -/
def class_reduce (num denom sup : List ℚ) (class_reduction : String) : CRVal :=
  if class_reduction = "micro" then .scalar (num.sum / denom.sum)
  else if class_reduction = "macro" then
    .scalar ((classFracs num denom).sum / ((classFracs num denom).length : ℚ))
  else if class_reduction = "weighted" then
    .scalar ((List.zipWith (fun f w => f * w) (classFracs num denom)
      (sup.map fun s => s / sup.sum)).sum)
  else .vec (classFracs num denom)

/-- The three mutually exclusive return shapes of `precision_recall`. -/
inductive PRResult where
  | pair (precisionV recallV : CRVal)
  | withSupport (precisionV recallV : CRVal) (sups : List ℚ)
  | state (tps fps fns sups : List ℚ)
deriving DecidableEq

/-- Embedding of `precision_recall`: Stat Vectors via
`stat_scores_multiple_classes` with its default `reduction='none'`, then
the Class Reducer on TP/(TP+FP) and TP/(TP+FN); the raw state dictionary is
returned when `return_state` is set, else the support-extended pair when
`return_support` is set, else the plain pair. -/
def precision_recall (pred target : List Nat) (num_classes : Option Nat)
    (class_reduction : String) (return_support return_state : Bool) : PRResult :=
  let v := statScoresMCNoneFull pred target num_classes
  let precisionV := class_reduce v.tps (List.zipWith (· + ·) v.tps v.fps) v.sups class_reduction
  let recallV := class_reduce v.tps (List.zipWith (· + ·) v.tps v.fns) v.sups class_reduction
  if return_state then .state v.tps v.fps v.fns v.sups
  else if return_support then .withSupport precisionV recallV v.sups
  else .pair precisionV recallV

/-- Modelled from the spec: the Generic Reducer collaborator `reduce`
(torchmetrics.utils, not part of the sources): mean, sum, or identity over
a score vector; any other strategy string is a hard failure. -/
def reduce (vals : List ℚ) (reduction : String) : Except String CRVal :=
  if reduction = "elementwise_mean" then .ok (.scalar (vals.sum / (vals.length : ℚ)))
  else if reduction = "sum" then .ok (.scalar vals.sum)
  else if reduction = "none" then .ok (.vec vals)
  else .error "Reduction parameter unknown."

/-- The class count used by `dice_score`: the length of the class axis
(axis 1) of the probability tensor. -/
def diceNumClasses (pred : List (List ℚ)) : Nat :=
  (pred.headD []).length

/-- `bg = 1 - int(bool(bg))` of the source: 0 if the background class is
included, else 1. -/
def bgOffset (bg : Bool) : Nat :=
  1 - (if bg then 1 else 0)

/-- The per-class score vector built by `dice_score` before its final
reduction: for each class in `[bgOffset, num_classes)`, `no_fg_score` when
the class is absent from the target, else `2*TP/denom` with
`denom = 2*TP + FP + FN` when that is nonzero and `nan_score` otherwise. -/
def diceScoreVec (pred : List (List ℚ)) (target : List Nat)
    (bg : Bool) (nan_score no_fg_score : ℚ) : List ℚ :=
  let num_classes := diceNumClasses pred
  let b := bgOffset bg
  (List.range' b (num_classes - b)).map fun i =>
    if !(target.any fun t => decide (t = i)) then no_fg_score
    else
      let s := stat_scores2d pred target i
      let denom : ℚ := 2 * (s.1 : ℚ) + (s.2.1 : ℚ) + (s.2.2.2.1 : ℚ)
      if denom ≠ 0 then 2 * (s.1 : ℚ) / denom else nan_score

/-- Embedding of `dice_score`: the per-class score vector followed by the
Generic Reducer. -/
def dice_score (pred : List (List ℚ)) (target : List Nat) (bg : Bool)
    (nan_score no_fg_score : ℚ) (reduction : String) : Except String CRVal :=
  reduce (diceScoreVec pred target bg nan_score no_fg_score) reduction

/-- IEEE-style value produced by dividing finite tensor entries: a finite
rational, a signed infinity, or NaN. -/
inductive FVal where
  | fin (q : ℚ)
  | posInf
  | negInf
  | nan
deriving DecidableEq

/-- Division of finite floats: finite quotient for a nonzero divisor, and
for a zero divisor NaN on 0/0 and a signed infinity otherwise. -/
def fdiv (x s : ℚ) : FVal :=
  if s ≠ 0 then .fin (x / s)
  else if x = 0 then .nan
  else if 0 < x then .posInf
  else .negInf

/-- Each row of the confusion matrix divided by its row sum. -/
def confmatDivided (cm : List (List ℚ)) : List (List FVal) :=
  cm.map fun row => row.map fun x => fdiv x row.sum

/-- Number of NaN entries of the row-normalized confusion matrix. -/
def confmatNanCount (cm : List (List ℚ)) : Nat :=
  ((confmatDivided cm).map fun row => row.countP fun v => decide (v = FVal.nan)).sum

/-- Embedding of `_confmat_normalize`: rows divided by their row sums, NaN
entries replaced by zero, and — only when at least one NaN was found — a
single advisory naming the substitution count.  The advisory channel is the
second component and is separate from the returned matrix. -/
def _confmat_normalize (cm : List (List ℚ)) : List (List FVal) × List String :=
  let divided := confmatDivided cm
  let replaced := divided.map fun row => row.map fun v => if v = FVal.nan then FVal.fin 0 else v
  let warnings :=
    if confmatNanCount cm ≠ 0 then
      [toString (confmatNanCount cm) ++
        " nan values found in confusion matrix have been replaced with zeros."]
    else []
  (replaced, warnings)

/-- A list partitions into the four joint truth-value classes of two Boolean
predicates. -/
lemma countP_four {α : Type} (l : List α) (p q : α → Bool) :
    l.countP (fun a => p a && q a) + l.countP (fun a => p a && !q a) +
      l.countP (fun a => !p a && !q a) + l.countP (fun a => !p a && q a) = l.length := by
  induction l with
  | nil => simp
  | cons a l ih =>
    simp only [List.countP_cons, List.length_cons]
    cases hp : p a <;> cases hq : q a <;> simp [hp, hq] <;> omega

/-- Counting `q` splits along a second predicate `p`. -/
lemma countP_two {α : Type} (l : List α) (p q : α → Bool) :
    l.countP (fun a => p a && q a) + l.countP (fun a => !p a && q a) = l.countP q := by
  induction l with
  | nil => simp
  | cons a l ih =>
    simp only [List.countP_cons]
    cases hp : p a <;> cases hq : q a <;> simp [hp, hq] <;> omega

/-- Counting a predicate of the second component over a zip of equal-length
lists counts it over the second list. -/
lemma countP_zip_snd (pred target : List Nat) (f : Nat → Bool)
    (h : pred.length = target.length) :
    (pred.zip target).countP (fun pt => f pt.2) = target.countP f := by
  induction pred generalizing target with
  | nil => cases target <;> simp_all
  | cons a l ih =>
    cases target with
    | nil => simp_all
    | cons b m =>
      simp only [List.zip_cons_cons, List.countP_cons]
      have := ih m (by simpa using h)
      omega

/-- Counting a predicate of the first component over a zip of equal-length
lists counts it over the first list. -/
lemma countP_zip_fst (pred target : List Nat) (f : Nat → Bool)
    (h : pred.length = target.length) :
    (pred.zip target).countP (fun pt => f pt.1) = pred.countP f := by
  induction pred generalizing target with
  | nil => simp
  | cons a l ih =>
    cases target with
    | nil => simp_all
    | cons b m =>
      simp only [List.zip_cons_cons, List.countP_cons]
      have := ih m (by simpa using h)
      omega

/-- Predicates that agree on the members of a list count alike. -/
lemma countP_congr_mem {α : Type} (l : List α) (p q : α → Bool)
    (h : ∀ a ∈ l, p a = q a) : l.countP p = l.countP q := by
  induction l with
  | nil => simp
  | cons a l ih =>
    simp only [List.countP_cons]
    rw [h a (List.mem_cons_self a l), ih fun b hb => h b (List.mem_cons_of_mem a hb)]

/-- A predicate and its complement count up to the length. -/
lemma countP_add_not {α : Type} (l : List α) (p : α → Bool) :
    l.countP p + l.countP (fun a => !p a) = l.length := by
  induction l with
  | nil => simp
  | cons a l ih =>
    simp only [List.countP_cons, List.length_cons]
    cases hp : p a <;> simp [hp] <;> omega

/-- A count splits along a disjoint covering of its predicate (the covering
and disjointness only need to hold on the members of the list). -/
lemma countP_split {α : Type} (l : List α) (r p q : α → Bool)
    (h : ∀ a ∈ l, r a = (p a || q a) ∧ (p a && q a) = false) :
    l.countP r = l.countP p + l.countP q := by
  induction l with
  | nil => simp
  | cons a l ih =>
    simp only [List.countP_cons]
    have ha := h a (List.mem_cons_self a l)
    have ihl := ih fun b hb => h b (List.mem_cons_of_mem a hb)
    cases hp : p a <;> cases hq : q a <;>
      simp [hp, hq] at ha <;> simp [ihl, ha, hp, hq] <;> omega

/-- Sums of pointwise sums split (naturals). -/
lemma sum_map_add_nat {β : Type} (l : List β) (f g : β → Nat) :
    (l.map fun b => f b + g b).sum = (l.map f).sum + (l.map g).sum := by
  induction l with
  | nil => simp
  | cons a l ih => simp [ih]; omega

/-- Summing the indicator of `k = c` over `c < n` is the indicator of
`k < n`. -/
lemma sum_indicator_range (k n : Nat) :
    ((List.range n).map fun c => if k = c then 1 else 0).sum = if k < n then 1 else 0 := by
  induction n with
  | zero => simp
  | succ n ih =>
    rw [List.range_succ, List.map_append, List.sum_append, ih]
    simp only [List.map_cons, List.map_nil, List.sum_cons, List.sum_nil]
    by_cases h2 : k = n
    · subst h2; simp
    · by_cases h1 : k < n
      · have h3 : k < n + 1 := by omega
        simp [h1, h2, h3]
      · have h3 : ¬ k < n + 1 := by omega
        simp [h1, h2, h3]

/-- Summing keyed counts over all keys below `n` counts the elements whose
key is below `n` (with a side condition `q`). -/
lemma sum_range_countP {α : Type} (l : List α) (key : α → Nat) (q : α → Bool) (n : Nat) :
    ((List.range n).map fun c => l.countP fun a => decide (key a = c) && q a).sum =
      l.countP fun a => decide (key a < n) && q a := by
  induction l with
  | nil => simp
  | cons a l ih =>
    simp only [List.countP_cons]
    rw [sum_map_add_nat, ih]
    have hind : ((List.range n).map fun c =>
        if (decide (key a = c) && q a) = true then 1 else 0).sum =
        if (decide (key a < n) && q a) = true then 1 else 0 := by
      cases hq : q a
      · simp [hq]
      · simpa [hq] using sum_indicator_range (key a) n
    omega

/-- Summing plain keyed counts over all keys below `n` counts the elements
whose key is below `n`. -/
lemma sum_range_countP_plain {α : Type} (l : List α) (key : α → Nat) (n : Nat) :
    ((List.range n).map fun c => l.countP fun a => decide (key a = c)).sum =
      l.countP fun a => decide (key a < n) := by
  have h := sum_range_countP l key (fun _ => true) n
  simp only [Bool.and_true] at h
  exact h

/-- Truncating a map over `range (n+1)` to `n` entries is the map over
`range n`. -/
lemma take_map_range {β : Type} (f : Nat → β) (n : Nat) :
    ((List.range (n + 1)).map f).take n = (List.range n).map f := by
  rw [List.range_succ, List.map_append]
  exact List.take_left' (by simp)

/-- Indexing a map over `range n` with a default. -/
lemma getD_map_range {β : Type} [Inhabited β] (f : Nat → β) (n k : Nat) (d : β)
    (h : k < n) : ((List.range n).map f).getD k d = f k := by
  rw [List.getD_eq_getElem _ d (by simpa using h)]
  simp

/-- Indexing a map over `range' s n` with a default. -/
lemma getD_map_range' {β : Type} [Inhabited β] (f : Nat → β) (s n k : Nat) (d : β)
    (h : k < n) : ((List.range' s n).map f).getD k d = f (s + k) := by
  induction n generalizing s k with
  | zero => omega
  | succ n ih =>
    rw [List.range'_succ, List.map_cons]
    cases k with
    | zero => simp
    | succ k =>
      have : (f s :: (List.range' (s + 1) n).map f).getD (k + 1) d =
        ((List.range' (s + 1) n).map f).getD k d := rfl
      rw [this, ih (s + 1) k (by omega)]
      congr 1
      omega

/-- Casting a sum of naturals into ℚ inside the map. -/
lemma sum_map_cast {β : Type} (l : List β) (f : β → Nat) :
    (l.map fun b => ((f b : Nat) : ℚ)).sum = (((l.map f).sum : Nat) : ℚ) := by
  induction l with
  | nil => simp
  | cons a l ih =>
    simp only [List.map_cons, List.sum_cons, ih]
    push_cast
    ring

/-- Summing a constant minus a function over a list (rationals). -/
lemma sum_map_const_sub {β : Type} (l : List β) (x : ℚ) (f : β → ℚ) :
    (l.map fun b => x - f b).sum = (l.length : ℚ) * x - (l.map f).sum := by
  induction l with
  | nil => simp
  | cons a l ih =>
    simp only [List.map_cons, List.sum_cons, ih, List.length_cons]
    push_cast
    ring

/-- Every member of a list is at most its `foldr max 0`. -/
lemma le_foldr_max (l : List Nat) : ∀ x ∈ l, x ≤ l.foldr max 0 := by
  induction l with
  | nil => simp
  | cons a l ih =>
    intro x hx
    rcases List.mem_cons.mp hx with h | h
    · subst h; exact Nat.le_max_left _ _
    · exact le_trans (ih x h) (Nat.le_max_right _ _)

/-- Clamping keeps the length. -/
lemma clampTo_length (l : List Nat) (n : Nat) : (clampTo l n).length = l.length :=
  List.length_map l _

/-- Members of a clamped list are at most the bound. -/
lemma clampTo_le (l : List Nat) (n : Nat) : ∀ x ∈ clampTo l n, x ≤ n := by
  intro x hx
  rcases List.mem_map.mp hx with ⟨y, _, hy⟩
  subst hy
  exact Nat.min_le_right _ _

/-- With the inferred class count, every clamped label lies strictly below
it. -/
lemma clampTo_lt_inferred (pred target : List Nat) :
    (∀ x ∈ clampTo pred (get_num_classes pred target none),
        x < get_num_classes pred target none) ∧
    (∀ x ∈ clampTo target (get_num_classes pred target none),
        x < get_num_classes pred target none) := by
  constructor <;>
  · intro x hx
    rcases List.mem_map.mp hx with ⟨y, hy, hxy⟩
    subst hxy
    have hle : y ≤ (pred ++ target).foldr max 0 :=
      le_foldr_max _ y (by simp [hy])
    simp only [get_num_classes]
    omega

/-- C1: for `pred` and `target` of matching shape — for label inputs
directly, and for probability inputs after the arg-max conversion, which
preserves the element count — and every `class_index`, the five counts of
`stat_scores` are non-negative, TP + FP + TN + FN equals the total element
count, and TP + FN equals Support. -/
theorem C1_stat_scores_invariants (pred target : List Nat) (c : Nat)
    (h : pred.length = target.length) :
    (0 ≤ ((stat_scores pred target c).1 : ℤ) ∧
      0 ≤ ((stat_scores pred target c).2.1 : ℤ) ∧
      0 ≤ ((stat_scores pred target c).2.2.1 : ℤ) ∧
      0 ≤ ((stat_scores pred target c).2.2.2.1 : ℤ) ∧
      0 ≤ ((stat_scores pred target c).2.2.2.2 : ℤ)) ∧
    (stat_scores pred target c).1 + (stat_scores pred target c).2.1 +
      (stat_scores pred target c).2.2.1 + (stat_scores pred target c).2.2.2.1 =
      target.length ∧
    (stat_scores pred target c).1 + (stat_scores pred target c).2.2.2.1 =
      (stat_scores pred target c).2.2.2.2 := by
  refine ⟨⟨?_, ?_, ?_, ?_, ?_⟩, ?_, ?_⟩
  · exact Int.natCast_nonneg _
  · exact Int.natCast_nonneg _
  · exact Int.natCast_nonneg _
  · exact Int.natCast_nonneg _
  · exact Int.natCast_nonneg _
  · show (pred.zip target).countP _ + (pred.zip target).countP _ +
      (pred.zip target).countP _ + (pred.zip target).countP _ = target.length
    have h4 := countP_four (pred.zip target)
      (fun pt => decide (pt.1 = c)) (fun pt => decide (pt.2 = c))
    have hlen : (pred.zip target).length = target.length := by
      rw [List.length_zip, h, Nat.min_self]
    rw [← hlen]
    exact h4
  · show (pred.zip target).countP _ + (pred.zip target).countP _ =
      target.countP _
    have h2 := countP_two (pred.zip target)
      (fun pt => decide (pt.1 = c)) (fun pt => decide (pt.2 = c))
    rw [h2]
    exact countP_zip_snd pred target (fun t => decide (t = c)) h

/-- Witness for C1 at the documented example `pred = [1,2,3]`,
`target = [0,2,3]`, `class_index = 1`. -/
theorem C1_stat_scores_invariants_witness :
    ([1, 2, 3] : List Nat).length = ([0, 2, 3] : List Nat).length ∧
    ((0 ≤ ((stat_scores [1, 2, 3] [0, 2, 3] 1).1 : ℤ) ∧
      0 ≤ ((stat_scores [1, 2, 3] [0, 2, 3] 1).2.1 : ℤ) ∧
      0 ≤ ((stat_scores [1, 2, 3] [0, 2, 3] 1).2.2.1 : ℤ) ∧
      0 ≤ ((stat_scores [1, 2, 3] [0, 2, 3] 1).2.2.2.1 : ℤ) ∧
      0 ≤ ((stat_scores [1, 2, 3] [0, 2, 3] 1).2.2.2.2 : ℤ)) ∧
    (stat_scores [1, 2, 3] [0, 2, 3] 1).1 + (stat_scores [1, 2, 3] [0, 2, 3] 1).2.1 +
      (stat_scores [1, 2, 3] [0, 2, 3] 1).2.2.1 + (stat_scores [1, 2, 3] [0, 2, 3] 1).2.2.2.1 =
      ([0, 2, 3] : List Nat).length ∧
    (stat_scores [1, 2, 3] [0, 2, 3] 1).1 + (stat_scores [1, 2, 3] [0, 2, 3] 1).2.2.2.1 =
      (stat_scores [1, 2, 3] [0, 2, 3] 1).2.2.2.2) :=
  ⟨by decide, C1_stat_scores_invariants [1, 2, 3] [0, 2, 3] 1 (by decide)⟩

/-- The truncation of the `'none'` accumulators discards exactly the
overflow slot. -/
lemma noneBranch_fields (pred target : List Nat) (nc : Nat) :
    (noneBranch pred target nc).tps =
      ((List.range nc).map fun c => ((tpsAt pred target c : Nat) : ℚ)) ∧
    (noneBranch pred target nc).fps =
      ((List.range nc).map fun c => ((fpsAt pred target c : Nat) : ℚ)) ∧
    (noneBranch pred target nc).fns =
      ((List.range nc).map fun c => ((fnsAt pred target c : Nat) : ℚ)) ∧
    (noneBranch pred target nc).sups =
      ((List.range nc).map fun c => ((supsAt target c : Nat) : ℚ)) ∧
    (noneBranch pred target nc).tns =
      ((List.range nc).map fun c =>
        ((pred.length : Nat) : ℚ) -
          (((tpsAt pred target c : Nat) : ℚ) + ((fpsAt pred target c : Nat) : ℚ) +
            ((fnsAt pred target c : Nat) : ℚ))) := by
  refine ⟨?_, ?_, ?_, ?_, ?_⟩ <;> simp [noneBranch, take_map_range]

/-- The four per-class counts of the `'none'` branch total the element
count for every class, by construction of `tns`. -/
lemma noneBranch_total (pred target : List Nat) (nc c : Nat) (hc : c < nc) :
    (noneBranch pred target nc).tps.getD c 0 + (noneBranch pred target nc).fps.getD c 0 +
      (noneBranch pred target nc).fns.getD c 0 + (noneBranch pred target nc).tns.getD c 0 =
      (pred.length : ℚ) := by
  obtain ⟨e1, e2, e3, _, e5⟩ := noneBranch_fields pred target nc
  rw [e1, e2, e3, e5, getD_map_range _ _ _ _ hc, getD_map_range _ _ _ _ hc,
    getD_map_range _ _ _ _ hc, getD_map_range _ _ _ _ hc]
  ring

/-- When every target label is below the class count, the per-class
supports of the `'none'` branch sum to the element count. -/
lemma noneBranch_sups_sum (pred target : List Nat) (nc : Nat)
    (hlt : ∀ x ∈ target, x < nc) :
    (noneBranch pred target nc).sups.sum = (target.length : ℚ) := by
  obtain ⟨_, _, _, e4, _⟩ := noneBranch_fields pred target nc
  rw [e4, sum_map_cast]
  have hplain : ((List.range nc).map fun c => supsAt target c).sum =
      target.countP (fun a => decide (a < nc)) :=
    sum_range_countP_plain target (fun t => t) nc
  rw [hplain, List.countP_eq_length.mpr fun a ha => by simpa using hlt a ha]

/-- C2: with the default (inferred) `num_classes` and `reduction = 'none'`,
the Stat Vectors of `stat_scores_multiple_classes` satisfy
`tp[c] + fp[c] + fn[c] + tn[c] = total element count` for every class
`c < num_classes`, and the support vector sums to the total element
count. -/
theorem C2_none_reduction_invariants (pred target : List Nat)
    (h : pred.length = target.length) :
    stat_scores_multiple_classes pred target none "none" =
      .ok (.vecs (statScoresMCNoneFull pred target none)) ∧
    (∀ c, c < get_num_classes pred target none →
      (statScoresMCNoneFull pred target none).tps.getD c 0 +
        (statScoresMCNoneFull pred target none).fps.getD c 0 +
        (statScoresMCNoneFull pred target none).fns.getD c 0 +
        (statScoresMCNoneFull pred target none).tns.getD c 0 = (pred.length : ℚ)) ∧
    (statScoresMCNoneFull pred target none).sups.sum = (pred.length : ℚ) := by
  refine ⟨rfl, ?_, ?_⟩
  · intro c hc
    have := noneBranch_total (clampTo pred (get_num_classes pred target none))
      (clampTo target (get_num_classes pred target none))
      (get_num_classes pred target none) c hc
    simpa [statScoresMCNoneFull, clampTo_length] using this
  · have hlt := (clampTo_lt_inferred pred target).2
    have := noneBranch_sups_sum (clampTo pred (get_num_classes pred target none))
      (clampTo target (get_num_classes pred target none))
      (get_num_classes pred target none) hlt
    rw [clampTo_length, ← h] at this
    simpa [statScoresMCNoneFull] using this

/-- Witness for C2 at `pred = [0,1]`, `target = [1,1]`, class `c = 0`. -/
theorem C2_none_reduction_invariants_witness :
    (statScoresMCNoneFull [0, 1] [1, 1] none).tps.getD 0 0 +
      (statScoresMCNoneFull [0, 1] [1, 1] none).fps.getD 0 0 +
      (statScoresMCNoneFull [0, 1] [1, 1] none).fns.getD 0 0 +
      (statScoresMCNoneFull [0, 1] [1, 1] none).tns.getD 0 0 =
      (([0, 1] : List Nat).length : ℚ) ∧
    (statScoresMCNoneFull [0, 1] [1, 1] none).sups.sum =
      (([0, 1] : List Nat).length : ℚ) :=
  ⟨(C2_none_reduction_invariants [0, 1] [1, 1] (by decide)).2.1 0 (by decide),
    (C2_none_reduction_invariants [0, 1] [1, 1] (by decide)).2.2⟩

/-- Sums of pointwise sums split (rationals). -/
lemma sum_map_add_rat {β : Type} (l : List β) (f g : β → ℚ) :
    (l.map fun b => f b + g b).sum = (l.map f).sum + (l.map g).sum := by
  induction l with
  | nil => simp
  | cons a l ih =>
    simp only [List.map_cons, List.sum_cons, ih]
    ring

/-- The five aggregates of the `'sum'` branch, written out. -/
lemma sumBranch_defs (pred target : List Nat) (nc : Nat) :
    (sumBranch pred target nc).tps =
      (((pred.zip target).countP fun pt => decide (pt.1 = pt.2) : Nat) : ℚ) -
        ((stat_scores pred target nc).1 : ℚ) ∧
    (sumBranch pred target nc).fps =
      ((pred.length : Nat) : ℚ) -
        (((pred.zip target).countP fun pt => decide (pt.1 = pt.2) : Nat) : ℚ) -
        ((stat_scores pred target nc).2.1 : ℚ) ∧
    (sumBranch pred target nc).fns =
      ((pred.length : Nat) : ℚ) -
        (((pred.zip target).countP fun pt => decide (pt.1 = pt.2) : Nat) : ℚ) -
        ((stat_scores pred target nc).2.2.2.1 : ℚ) ∧
    (sumBranch pred target nc).sups =
      ((pred.length : Nat) : ℚ) - ((stat_scores pred target nc).2.2.2.2 : ℚ) ∧
    (sumBranch pred target nc).tns =
      ((pred.length : Nat) : ℚ) * ((nc : ℚ) + 1) -
        ((sumBranch pred target nc).tps + (sumBranch pred target nc).fps +
          (sumBranch pred target nc).fns + ((stat_scores pred target nc).2.2.1 : ℚ)) :=
  ⟨rfl, rfl, rfl, rfl, rfl⟩

/-- Summed per-class true positives plus the overflow-class TP give the
global match count (labels bounded by the class count). -/
lemma agg_tps (pred target : List Nat) (nc : Nat)
    (hb : ∀ pt ∈ pred.zip target, pt.1 ≤ nc ∧ pt.2 ≤ nc) :
    ((List.range nc).map fun c => tpsAt pred target c).sum + (stat_scores pred target nc).1 =
      (pred.zip target).countP fun pt => decide (pt.1 = pt.2) := by
  have hsum : ((List.range nc).map fun c => tpsAt pred target c).sum =
      (pred.zip target).countP fun pt => decide (pt.1 < nc) && decide (pt.1 = pt.2) :=
    sum_range_countP (pred.zip target) (fun pt => pt.1) (fun pt => decide (pt.1 = pt.2)) nc
  rw [hsum]
  have hsp : (stat_scores pred target nc).1 =
      (pred.zip target).countP fun pt => decide (pt.1 = nc) && decide (pt.2 = nc) := rfl
  rw [hsp]
  refine (countP_split (pred.zip target) _ _ _ fun a ha => ?_).symm
  obtain ⟨h1, h2⟩ := hb a ha
  constructor
  · by_cases hm : a.1 = a.2 <;> by_cases hlt : a.1 < nc <;> by_cases he : a.1 = nc <;>
      simp [hm, hlt, he] <;> omega
  · by_cases hm : a.1 = a.2 <;> by_cases hlt : a.1 < nc <;> by_cases he : a.1 = nc <;>
      simp [hm, hlt, he] <;> omega

/-- Summed per-class false positives plus the overflow-class FP give the
global mismatch count. -/
lemma agg_fps (pred target : List Nat) (nc : Nat)
    (hb : ∀ pt ∈ pred.zip target, pt.1 ≤ nc ∧ pt.2 ≤ nc) :
    ((List.range nc).map fun c => fpsAt pred target c).sum + (stat_scores pred target nc).2.1 =
      (pred.zip target).countP fun pt => !decide (pt.1 = pt.2) := by
  have hsum : ((List.range nc).map fun c => fpsAt pred target c).sum =
      (pred.zip target).countP fun pt => decide (pt.1 < nc) && !decide (pt.1 = pt.2) :=
    sum_range_countP (pred.zip target) (fun pt => pt.1) (fun pt => !decide (pt.1 = pt.2)) nc
  rw [hsum]
  have hsp : (stat_scores pred target nc).2.1 =
      (pred.zip target).countP fun pt => decide (pt.1 = nc) && !decide (pt.2 = nc) := rfl
  rw [hsp]
  refine (countP_split (pred.zip target) _ _ _ fun a ha => ?_).symm
  obtain ⟨h1, h2⟩ := hb a ha
  constructor
  · by_cases hm : a.1 = a.2 <;> by_cases hlt : a.1 < nc <;> by_cases he : a.1 = nc <;>
      by_cases he2 : a.2 = nc <;> simp [hm, hlt, he, he2] <;> omega
  · by_cases hm : a.1 = a.2 <;> by_cases hlt : a.1 < nc <;> by_cases he : a.1 = nc <;>
      by_cases he2 : a.2 = nc <;> simp [hm, hlt, he, he2] <;> omega

/-- Summed per-class false negatives plus the overflow-class FN give the
global mismatch count. -/
lemma agg_fns (pred target : List Nat) (nc : Nat)
    (hb : ∀ pt ∈ pred.zip target, pt.1 ≤ nc ∧ pt.2 ≤ nc) :
    ((List.range nc).map fun c => fnsAt pred target c).sum +
      (stat_scores pred target nc).2.2.2.1 =
      (pred.zip target).countP fun pt => !decide (pt.1 = pt.2) := by
  have hsum : ((List.range nc).map fun c => fnsAt pred target c).sum =
      (pred.zip target).countP fun pt => decide (pt.2 < nc) && !decide (pt.1 = pt.2) :=
    sum_range_countP (pred.zip target) (fun pt => pt.2) (fun pt => !decide (pt.1 = pt.2)) nc
  rw [hsum]
  have hsp : (stat_scores pred target nc).2.2.2.1 =
      (pred.zip target).countP fun pt => !decide (pt.1 = nc) && decide (pt.2 = nc) := rfl
  rw [hsp]
  refine (countP_split (pred.zip target) _ _ _ fun a ha => ?_).symm
  obtain ⟨h1, h2⟩ := hb a ha
  constructor
  · by_cases hm : a.1 = a.2 <;> by_cases hlt : a.2 < nc <;> by_cases he : a.2 = nc <;>
      by_cases he1 : a.1 = nc <;> simp [hm, hlt, he, he1] <;> omega
  · by_cases hm : a.1 = a.2 <;> by_cases hlt : a.2 < nc <;> by_cases he : a.2 = nc <;>
      by_cases he1 : a.1 = nc <;> simp [hm, hlt, he, he1] <;> omega

/-- Summed per-class supports plus the overflow-class support give the
element count. -/
lemma agg_sups (target : List Nat) (pred : List Nat) (nc : Nat)
    (hbt : ∀ x ∈ target, x ≤ nc) :
    ((List.range nc).map fun c => supsAt target c).sum +
      (stat_scores pred target nc).2.2.2.2 = target.length := by
  have hsum : ((List.range nc).map fun c => supsAt target c).sum =
      target.countP fun t => decide (t < nc) :=
    sum_range_countP_plain target (fun t => t) nc
  rw [hsum]
  have hsp : (stat_scores pred target nc).2.2.2.2 =
      target.countP fun t => decide (t = nc) := rfl
  rw [hsp]
  have hco : (target.countP fun t => decide (t < nc)) =
      target.countP fun t => !decide (t = nc) := by
    refine countP_congr_mem target _ _ fun a ha => ?_
    have := hbt a ha
    by_cases he : a = nc <;> simp [he] <;> omega
  rw [hco, Nat.add_comm, countP_add_not]

/-- The global TN complement: overflow-touching positions plus the
overflow-class TN give the element count. -/
lemma agg_tns_complement (pred target : List Nat) (nc : Nat) :
    ((pred.zip target).countP fun pt => decide (pt.1 = nc) || decide (pt.2 = nc)) +
      (stat_scores pred target nc).2.2.1 = (pred.zip target).length := by
  have hsp : (stat_scores pred target nc).2.2.1 =
      (pred.zip target).countP fun pt => !decide (pt.1 = nc) && !decide (pt.2 = nc) := rfl
  rw [hsp]
  have hco : ((pred.zip target).countP fun pt => !decide (pt.1 = nc) && !decide (pt.2 = nc)) =
      (pred.zip target).countP fun pt => !(decide (pt.1 = nc) || decide (pt.2 = nc)) := by
    refine countP_congr_mem _ _ _ fun a _ => ?_
    by_cases h1 : a.1 = nc <;> by_cases h2 : a.2 = nc <;> simp [h1, h2]
  rw [hco, countP_add_not]

/-- The `'sum'` branch aggregates against the summed `'none'` Stat
Vectors: TP, FP, FN and Support agree, while TN exceeds the summed
per-class TN by the number of overflow-touching positions. -/
lemma sum_vs_none (pred target : List Nat) (nc : Nat)
    (hlen : pred.length = target.length)
    (hb : ∀ pt ∈ pred.zip target, pt.1 ≤ nc ∧ pt.2 ≤ nc)
    (hbt : ∀ x ∈ target, x ≤ nc) :
    (sumBranch pred target nc).tps = (noneBranch pred target nc).tps.sum ∧
    (sumBranch pred target nc).fps = (noneBranch pred target nc).fps.sum ∧
    (sumBranch pred target nc).fns = (noneBranch pred target nc).fns.sum ∧
    (sumBranch pred target nc).sups = (noneBranch pred target nc).sups.sum ∧
    (sumBranch pred target nc).tns = (noneBranch pred target nc).tns.sum +
      (((pred.zip target).countP fun pt => decide (pt.1 = nc) || decide (pt.2 = nc) : Nat) : ℚ) := by
  obtain ⟨e1, e2, e3, e4, e5⟩ := noneBranch_fields pred target nc
  obtain ⟨s1, s2, s3, s4, s5⟩ := sumBranch_defs pred target nc
  have htp := agg_tps pred target nc hb
  have hfp := agg_fps pred target nc hb
  have hfn := agg_fns pred target nc hb
  have hsup := agg_sups target pred nc hbt
  have htnc := agg_tns_complement pred target nc
  have hm := countP_add_not (pred.zip target) (fun pt => decide (pt.1 = pt.2))
  have hzlen : (pred.zip target).length = pred.length := by
    rw [List.length_zip, hlen, Nat.min_self]
  have ctp : ((List.range nc).map fun c => ((tpsAt pred target c : Nat) : ℚ)).sum =
      ((((List.range nc).map fun c => tpsAt pred target c).sum : Nat) : ℚ) :=
    sum_map_cast _ _
  have cfp : ((List.range nc).map fun c => ((fpsAt pred target c : Nat) : ℚ)).sum =
      ((((List.range nc).map fun c => fpsAt pred target c).sum : Nat) : ℚ) :=
    sum_map_cast _ _
  have cfn : ((List.range nc).map fun c => ((fnsAt pred target c : Nat) : ℚ)).sum =
      ((((List.range nc).map fun c => fnsAt pred target c).sum : Nat) : ℚ) :=
    sum_map_cast _ _
  have csup : ((List.range nc).map fun c => ((supsAt target c : Nat) : ℚ)).sum =
      ((((List.range nc).map fun c => supsAt target c).sum : Nat) : ℚ) :=
    sum_map_cast _ _
  have htpq : (((((List.range nc).map fun c => tpsAt pred target c).sum : Nat) : ℚ)) +
      ((stat_scores pred target nc).1 : ℚ) =
      (((pred.zip target).countP fun pt => decide (pt.1 = pt.2) : Nat) : ℚ) := by
    exact_mod_cast congrArg (fun x : Nat => (x : ℚ)) htp
  have hfpq : (((((List.range nc).map fun c => fpsAt pred target c).sum : Nat) : ℚ)) +
      ((stat_scores pred target nc).2.1 : ℚ) =
      (((pred.zip target).countP fun pt => !decide (pt.1 = pt.2) : Nat) : ℚ) := by
    exact_mod_cast congrArg (fun x : Nat => (x : ℚ)) hfp
  have hfnq : (((((List.range nc).map fun c => fnsAt pred target c).sum : Nat) : ℚ)) +
      ((stat_scores pred target nc).2.2.2.1 : ℚ) =
      (((pred.zip target).countP fun pt => !decide (pt.1 = pt.2) : Nat) : ℚ) := by
    exact_mod_cast congrArg (fun x : Nat => (x : ℚ)) hfn
  have hsupq : (((((List.range nc).map fun c => supsAt target c).sum : Nat) : ℚ)) +
      ((stat_scores pred target nc).2.2.2.2 : ℚ) = ((target.length : Nat) : ℚ) := by
    exact_mod_cast congrArg (fun x : Nat => (x : ℚ)) hsup
  have htncq : (((pred.zip target).countP fun pt =>
        decide (pt.1 = nc) || decide (pt.2 = nc) : Nat) : ℚ) +
      ((stat_scores pred target nc).2.2.1 : ℚ) = (((pred.zip target).length : Nat) : ℚ) := by
    exact_mod_cast congrArg (fun x : Nat => (x : ℚ)) htnc
  have hmq : (((pred.zip target).countP fun pt => decide (pt.1 = pt.2) : Nat) : ℚ) +
      (((pred.zip target).countP fun pt => !decide (pt.1 = pt.2) : Nat) : ℚ) =
      (((pred.zip target).length : Nat) : ℚ) := by
    exact_mod_cast congrArg (fun x : Nat => (x : ℚ)) hm
  have hzlenq : (((pred.zip target).length : Nat) : ℚ) = ((pred.length : Nat) : ℚ) := by
    exact_mod_cast congrArg (fun x : Nat => (x : ℚ)) hzlen
  have hlenq : ((pred.length : Nat) : ℚ) = ((target.length : Nat) : ℚ) := by
    exact_mod_cast congrArg (fun x : Nat => (x : ℚ)) hlen
  refine ⟨?_, ?_, ?_, ?_, ?_⟩
  · rw [s1, e1, ctp]; linarith
  · rw [s2, e2, cfp]; linarith
  · rw [s3, e3, cfn]; linarith
  · rw [s4, e4, csup]; linarith
  · rw [s5, s1, s2, s3, e5]
    have etns : ((List.range nc).map fun c =>
        ((pred.length : Nat) : ℚ) -
          (((tpsAt pred target c : Nat) : ℚ) + ((fpsAt pred target c : Nat) : ℚ) +
            ((fnsAt pred target c : Nat) : ℚ))).sum =
        ((List.range nc).length : ℚ) * ((pred.length : Nat) : ℚ) -
          ((List.range nc).map fun c =>
            ((tpsAt pred target c : Nat) : ℚ) + ((fpsAt pred target c : Nat) : ℚ) +
              ((fnsAt pred target c : Nat) : ℚ)).sum :=
      sum_map_const_sub _ _ _
    have esplit : ((List.range nc).map fun c =>
        ((tpsAt pred target c : Nat) : ℚ) + ((fpsAt pred target c : Nat) : ℚ) +
          ((fnsAt pred target c : Nat) : ℚ)).sum =
        ((List.range nc).map fun c =>
          ((tpsAt pred target c : Nat) : ℚ) + ((fpsAt pred target c : Nat) : ℚ)).sum +
        ((List.range nc).map fun c => ((fnsAt pred target c : Nat) : ℚ)).sum :=
      sum_map_add_rat _ _ _
    have esplit2 : ((List.range nc).map fun c =>
        ((tpsAt pred target c : Nat) : ℚ) + ((fpsAt pred target c : Nat) : ℚ)).sum =
        ((List.range nc).map fun c => ((tpsAt pred target c : Nat) : ℚ)).sum +
        ((List.range nc).map fun c => ((fpsAt pred target c : Nat) : ℚ)).sum :=
      sum_map_add_rat _ _ _
    rw [etns, esplit, esplit2, ctp, cfp, cfn, List.length_range]
    push_cast
    push_cast at htpq hfpq hfnq htncq hmq hzlenq
    linarith [htpq, hfpq, hfnq, htncq, hmq, hzlenq]

/-- C3 (amended): for every `pred`, `target` and explicit `num_classes`,
the `'sum'` reduction's TP, FP, FN and Support aggregates equal the sums of
the corresponding `'none'` per-class Stat Vectors, while the TN aggregate
equals the summed per-class TN plus the number of positions whose clamped
prediction or target falls into the overflow bucket — so all five agree
exactly only when no label reaches `num_classes`. -/
theorem C3_sum_aggregates_vs_none (pred target : List Nat) (nc : Nat)
    (h : pred.length = target.length) :
    stat_scores_multiple_classes pred target (some nc) "sum" =
      .ok (.aggs (statScoresMCSumFull pred target (some nc))) ∧
    (statScoresMCSumFull pred target (some nc)).tps =
      (statScoresMCNoneFull pred target (some nc)).tps.sum ∧
    (statScoresMCSumFull pred target (some nc)).fps =
      (statScoresMCNoneFull pred target (some nc)).fps.sum ∧
    (statScoresMCSumFull pred target (some nc)).fns =
      (statScoresMCNoneFull pred target (some nc)).fns.sum ∧
    (statScoresMCSumFull pred target (some nc)).sups =
      (statScoresMCNoneFull pred target (some nc)).sups.sum ∧
    (statScoresMCSumFull pred target (some nc)).tns =
      (statScoresMCNoneFull pred target (some nc)).tns.sum +
        ((overflowTouch pred target nc : Nat) : ℚ) := by
  refine ⟨rfl, ?_⟩
  have hb : ∀ pt ∈ (clampTo pred nc).zip (clampTo target nc), pt.1 ≤ nc ∧ pt.2 ≤ nc := by
    intro pt hpt
    obtain ⟨h1, h2⟩ := List.of_mem_zip hpt
    exact ⟨clampTo_le _ _ _ h1, clampTo_le _ _ _ h2⟩
  have hlen2 : (clampTo pred nc).length = (clampTo target nc).length := by
    rw [clampTo_length, clampTo_length, h]
  have hmain := sum_vs_none (clampTo pred nc) (clampTo target nc) nc hlen2 hb
    (clampTo_le target nc)
  simpa [statScoresMCSumFull, statScoresMCNoneFull, get_num_classes, overflowTouch]
    using hmain

/-- C3 counterexample: at `pred = [0]`, `target = [5]`, `num_classes = 2`
the `'sum'` reduction's TN aggregate is 2 while the `'none'` per-class TN
entries sum to 1, so the claimed equality of all five aggregates fails. -/
theorem C3_counterexample :
    (statScoresMCSumFull [0] [5] (some 2)).tns = 2 ∧
    (statScoresMCNoneFull [0] [5] (some 2)).tns.sum = 1 ∧
    (statScoresMCSumFull [0] [5] (some 2)).tns ≠
      (statScoresMCNoneFull [0] [5] (some 2)).tns.sum := by
  refine ⟨by with_unfolding_all decide, by with_unfolding_all decide,
    by with_unfolding_all decide⟩

/-- Witness for C3 at `pred = [0]`, `target = [5]`, `num_classes = 2`. -/
theorem C3_sum_aggregates_vs_none_witness :
    ([0] : List Nat).length = ([5] : List Nat).length ∧
    (stat_scores_multiple_classes [0] [5] (some 2) "sum" =
      .ok (.aggs (statScoresMCSumFull [0] [5] (some 2))) ∧
    (statScoresMCSumFull [0] [5] (some 2)).tps =
      (statScoresMCNoneFull [0] [5] (some 2)).tps.sum ∧
    (statScoresMCSumFull [0] [5] (some 2)).fps =
      (statScoresMCNoneFull [0] [5] (some 2)).fps.sum ∧
    (statScoresMCSumFull [0] [5] (some 2)).fns =
      (statScoresMCNoneFull [0] [5] (some 2)).fns.sum ∧
    (statScoresMCSumFull [0] [5] (some 2)).sups =
      (statScoresMCNoneFull [0] [5] (some 2)).sups.sum ∧
    (statScoresMCSumFull [0] [5] (some 2)).tns =
      (statScoresMCNoneFull [0] [5] (some 2)).tns.sum +
        ((overflowTouch [0] [5] 2 : Nat) : ℚ)) :=
  ⟨by decide, C3_sum_aggregates_vs_none [0] [5] 2 (by decide)⟩

/-- C4: the `'elementwise_mean'` reduction of
`stat_scores_multiple_classes` returns exactly the `'sum'` aggregates, each
divided by `num_classes`. -/
theorem C4_elementwise_mean_is_sum_div (pred target : List Nat) (ncOpt : Option Nat)
    (a : StatAgg)
    (h : stat_scores_multiple_classes pred target ncOpt "sum" = .ok (.aggs a)) :
    stat_scores_multiple_classes pred target ncOpt "elementwise_mean" =
      .ok (.aggs
        { tps := a.tps / ((get_num_classes pred target ncOpt : Nat) : ℚ)
          fps := a.fps / ((get_num_classes pred target ncOpt : Nat) : ℚ)
          tns := a.tns / ((get_num_classes pred target ncOpt : Nat) : ℚ)
          fns := a.fns / ((get_num_classes pred target ncOpt : Nat) : ℚ)
          sups := a.sups / ((get_num_classes pred target ncOpt : Nat) : ℚ) }) := by
  have ha : statScoresMCSumFull pred target ncOpt = a := by
    have h2 := h
    unfold stat_scores_multiple_classes at h2
    rw [if_neg (by decide : ¬("sum" : String) = "none"), if_pos rfl] at h2
    simpa using h2
  subst ha
  rfl

/-- Witness for C4 at `pred = [0, 1]`, `target = [0, 1]`, inferred
`num_classes`. -/
theorem C4_elementwise_mean_is_sum_div_witness :
    stat_scores_multiple_classes [0, 1] [0, 1] none "elementwise_mean" =
      .ok (.aggs
        { tps := (statScoresMCSumFull [0, 1] [0, 1] none).tps /
            ((get_num_classes [0, 1] [0, 1] none : Nat) : ℚ)
          fps := (statScoresMCSumFull [0, 1] [0, 1] none).fps /
            ((get_num_classes [0, 1] [0, 1] none : Nat) : ℚ)
          tns := (statScoresMCSumFull [0, 1] [0, 1] none).tns /
            ((get_num_classes [0, 1] [0, 1] none : Nat) : ℚ)
          fns := (statScoresMCSumFull [0, 1] [0, 1] none).fns /
            ((get_num_classes [0, 1] [0, 1] none : Nat) : ℚ)
          sups := (statScoresMCSumFull [0, 1] [0, 1] none).sups /
            ((get_num_classes [0, 1] [0, 1] none : Nat) : ℚ) }) :=
  C4_elementwise_mean_is_sum_div [0, 1] [0, 1] none
    (statScoresMCSumFull [0, 1] [0, 1] none) rfl

/-- C5: `stat_scores_multiple_classes` fails with the error naming the
offending reduction value exactly when the reduction string is invalid, and
an error is the whole result (no statistics accompany it). -/
theorem C5_invalid_reduction_error (pred target : List Nat) (ncOpt : Option Nat)
    (r : String) :
    (r ≠ "none" ∧ r ≠ "sum" ∧ r ≠ "elementwise_mean" →
      stat_scores_multiple_classes pred target ncOpt r =
        .error ("reduction type " ++ r ++ " not supported")) ∧
    (∀ e, stat_scores_multiple_classes pred target ncOpt r = .error e →
      (r ≠ "none" ∧ r ≠ "sum" ∧ r ≠ "elementwise_mean") ∧
      e = "reduction type " ++ r ++ " not supported") := by
  unfold stat_scores_multiple_classes
  by_cases h1 : r = "none"
  · subst h1; simp
  · by_cases h2 : r = "sum"
    · subst h2; simp
    · by_cases h3 : r = "elementwise_mean"
      · subst h3; simp
      · simp [h1, h2, h3]

/-- Witness for C5 at the invalid reduction string `"foo"`. -/
theorem C5_invalid_reduction_error_witness :
    stat_scores_multiple_classes [1] [1] none "foo" =
      .error ("reduction type " ++ "foo" ++ " not supported") :=
  (C5_invalid_reduction_error [1] [1] none "foo").1 ⟨by decide, by decide, by decide⟩

/-- C6: the documented macro scenario: `pred = [0,1,2,3]`,
`target = [0,2,2,2]` yield precision 1/2 and recall 1/3, with the Class
Reducer's macro strategy being the mean of the per-class ratios where a
zero denominator (in particular 0/0) contributes 0. -/
theorem C6_precision_recall_macro_scenario :
    precision_recall [0, 1, 2, 3] [0, 2, 2, 2] none "macro" false false =
      .pair (.scalar (1 / 2)) (.scalar (1 / 3)) := by with_unfolding_all decide

/-- C10: with `return_state = true`, `precision_recall` returns only the
raw state (tps, fps, fns, sups), whatever `return_support` is; neither
precision nor recall is part of the result. -/
theorem C10_return_state_precedence (pred target : List Nat) (ncOpt : Option Nat)
    (class_reduction : String) (rs : Bool) :
    precision_recall pred target ncOpt class_reduction rs true =
      .state (statScoresMCNoneFull pred target ncOpt).tps
        (statScoresMCNoneFull pred target ncOpt).fps
        (statScoresMCNoneFull pred target ncOpt).fns
        (statScoresMCNoneFull pred target ncOpt).sups := rfl

/-- C7: a class in the scored range that never occurs in the target gets
exactly `no_fg_score` as its per-class dice score (the source short-circuits
before computing any statistics, mirrored by the guarding conditional). -/
theorem C7_dice_no_foreground (pred : List (List ℚ)) (target : List Nat)
    (bg : Bool) (nan_score no_fg_score : ℚ) (i : Nat)
    (hb : bgOffset bg ≤ i) (hi : i < diceNumClasses pred) (hfg : i ∉ target) :
    (diceScoreVec pred target bg nan_score no_fg_score).getD (i - bgOffset bg) 0 =
      no_fg_score := by
  have hk : i - bgOffset bg < diceNumClasses pred - bgOffset bg := by omega
  unfold diceScoreVec
  rw [getD_map_range' _ _ _ _ _ hk]
  have hadd : bgOffset bg + (i - bgOffset bg) = i := by omega
  rw [hadd]
  have hany : (target.any fun t => decide (t = i)) = false := by
    simp only [List.any_eq_false, decide_eq_true_eq]
    intro t ht he
    exact hfg (he ▸ ht)
  simp [hany]

/-- Witness for C7: class 1 is absent from `target = [0,0]`, so its score
slot holds the configured `no_fg_score = 5`. -/
theorem C7_dice_no_foreground_witness :
    (diceScoreVec [[1, 0], [0, 1]] [0, 0] false 3 5).getD (1 - bgOffset false) 0 = 5 :=
  C7_dice_no_foreground [[1, 0], [0, 1]] [0, 0] false 3 5 1
    (by decide) (by decide) (by decide)

/-- C8: for a class with foreground present, the per-class dice score is
`2*TP/denom` with `denom = 2*TP + FP + FN` when `denom` is nonzero and
`nan_score` otherwise, and whenever `denom > 0` the score lies in `[0,1]`. -/
theorem C8_dice_foreground (pred : List (List ℚ)) (target : List Nat)
    (bg : Bool) (nan_score no_fg_score : ℚ) (i : Nat)
    (hb : bgOffset bg ≤ i) (hi : i < diceNumClasses pred) (hfg : i ∈ target) :
    ((diceScoreVec pred target bg nan_score no_fg_score).getD (i - bgOffset bg) 0 =
      if (2 * ((stat_scores2d pred target i).1 : ℚ) +
            ((stat_scores2d pred target i).2.1 : ℚ) +
            ((stat_scores2d pred target i).2.2.2.1 : ℚ)) ≠ 0 then
        2 * ((stat_scores2d pred target i).1 : ℚ) /
          (2 * ((stat_scores2d pred target i).1 : ℚ) +
            ((stat_scores2d pred target i).2.1 : ℚ) +
            ((stat_scores2d pred target i).2.2.2.1 : ℚ))
      else nan_score) ∧
    (0 < 2 * ((stat_scores2d pred target i).1 : ℚ) +
        ((stat_scores2d pred target i).2.1 : ℚ) +
        ((stat_scores2d pred target i).2.2.2.1 : ℚ) →
      0 ≤ (diceScoreVec pred target bg nan_score no_fg_score).getD (i - bgOffset bg) 0 ∧
      (diceScoreVec pred target bg nan_score no_fg_score).getD (i - bgOffset bg) 0 ≤ 1) := by
  have hk : i - bgOffset bg < diceNumClasses pred - bgOffset bg := by omega
  have hadd : bgOffset bg + (i - bgOffset bg) = i := by omega
  have hany : (target.any fun t => decide (t = i)) = true := by
    simp only [List.any_eq_true, decide_eq_true_eq]
    exact ⟨i, hfg, rfl⟩
  have hmain : (diceScoreVec pred target bg nan_score no_fg_score).getD (i - bgOffset bg) 0 =
      if (2 * ((stat_scores2d pred target i).1 : ℚ) +
            ((stat_scores2d pred target i).2.1 : ℚ) +
            ((stat_scores2d pred target i).2.2.2.1 : ℚ)) ≠ 0 then
        2 * ((stat_scores2d pred target i).1 : ℚ) /
          (2 * ((stat_scores2d pred target i).1 : ℚ) +
            ((stat_scores2d pred target i).2.1 : ℚ) +
            ((stat_scores2d pred target i).2.2.2.1 : ℚ))
      else nan_score := by
    unfold diceScoreVec
    rw [getD_map_range' _ _ _ _ _ hk, hadd]
    simp only [hany]
    norm_num
  refine ⟨hmain, fun hpos => ?_⟩
  rw [hmain, if_pos (ne_of_gt hpos)]
  constructor
  · apply div_nonneg _ (le_of_lt hpos)
    positivity
  · rw [div_le_one hpos]
    have h1 : (0 : ℚ) ≤ ((stat_scores2d pred target i).2.1 : ℚ) := Nat.cast_nonneg _
    have h2 : (0 : ℚ) ≤ ((stat_scores2d pred target i).2.2.2.1 : ℚ) := Nat.cast_nonneg _
    linarith

/-- Witness for C8: class 1 with foreground in `target = [1,1]` and
arg-max predictions `[1,0]` gives TP = 1, FP = 0, FN = 1, so the score is
2/3 and in particular lies in `[0,1]`. -/
theorem C8_dice_foreground_witness :
    0 ≤ (diceScoreVec [[0, 1], [1, 0]] [1, 1] false 7 9).getD (1 - bgOffset false) 0 ∧
    (diceScoreVec [[0, 1], [1, 0]] [1, 1] false 7 9).getD (1 - bgOffset false) 0 ≤ 1 :=
  (C8_dice_foreground [[0, 1], [1, 0]] [1, 1] false 7 9 1
    (by decide) (by decide) (by decide)).2 (by with_unfolding_all decide)

/-- C9 counterexample: at the NaN-free input `[[1]]`, `_confmat_normalize`
emits no advisory at all, refuting "exactly one advisory per call". -/
theorem C9_confmat_counterexample :
    (_confmat_normalize [[1]]).2 = [] ∧ ¬((_confmat_normalize [[1]]).2.length = 1) := by
  refine ⟨by with_unfolding_all decide, by with_unfolding_all decide⟩

/-- C9 (amended): `_confmat_normalize` divides each row by its row sum,
replaces every NaN of the result with 0 (so no NaN remains), and emits one
advisory naming the substitution count when at least one substitution
occurred and none otherwise; the advisory channel is separate from the
returned matrix. -/
theorem C9_confmat_normalize_amended (cm : List (List ℚ)) :
    (_confmat_normalize cm).1 = (confmatDivided cm).map
      (fun row => row.map fun v => if v = FVal.nan then FVal.fin 0 else v) ∧
    (∀ row ∈ (_confmat_normalize cm).1, ∀ v ∈ row, v ≠ FVal.nan) ∧
    (_confmat_normalize cm).2.length = (if confmatNanCount cm ≠ 0 then 1 else 0) ∧
    (confmatNanCount cm ≠ 0 →
      (_confmat_normalize cm).2 = [toString (confmatNanCount cm) ++
        " nan values found in confusion matrix have been replaced with zeros."]) := by
  refine ⟨rfl, ?_, ?_, ?_⟩
  · intro row hrow v hv
    simp only [_confmat_normalize] at hrow
    obtain ⟨row0, hrow0, hrow0e⟩ := List.mem_map.mp hrow
    subst hrow0e
    obtain ⟨v0, hv0, hv0e⟩ := List.mem_map.mp hv
    subst hv0e
    by_cases h : v0 = FVal.nan <;> simp [h]
  · unfold _confmat_normalize
    by_cases h : confmatNanCount cm ≠ 0 <;> simp [h]
  · intro h
    unfold _confmat_normalize
    simp [h]

/-- Witness for C9 at `[[0]]`: the zero row sum makes 0/0 a NaN, one
substitution happens and exactly one advisory naming it is emitted. -/
theorem C9_confmat_normalize_amended_witness :
    confmatNanCount [[0]] ≠ 0 ∧
    (_confmat_normalize [[0]]).2 = [toString (confmatNanCount [[0]]) ++
      " nan values found in confusion matrix have been replaced with zeros."] :=
  ⟨by with_unfolding_all decide,
    (C9_confmat_normalize_amended [[0]]).2.2.2 (by with_unfolding_all decide)⟩

end Metrics
